import Mathlib

/-
  A shallow embedding of the eade repository (src/eade/base_engine.py,
  src/eade/ead_engine.py, src/eade/rad_engine.py).

  Bytes are modelled as `List Nat` with every entry < 256 at the points where
  the program produces them (`struct.pack` output takes each byte `% 256`;
  theorems carry the in-range hypotheses that `struct.pack` enforces by
  raising `struct.error` for out-of-range field values).

  The external collaborators (the AES-CFB stream cipher from `cryptography`
  and the `zfec` erasure coder) are not code of this repository; pipeline
  definitions take them as function parameters, and theorems either
  hypothesise the behaviour the collaborators guarantee or instantiate them
  with small concrete instances that agree with the real collaborators on
  the inputs actually used.
-/

deriving instance DecidableEq for Except

namespace Eade

/-- Big-endian 4-byte encoding of a natural number, one `>I` field of
`struct.pack` (pack raises for values ≥ 2^32; callers stay in range). -/
def be32 (n : Nat) : List Nat :=
  [n / 2 ^ 24 % 256, n / 2 ^ 16 % 256, n / 2 ^ 8 % 256, n % 256]

/-- Big-endian 8-byte encoding of a natural number, one `>Q` field of
`struct.pack`. -/
def be64 (n : Nat) : List Nat :=
  [n / 2 ^ 56 % 256, n / 2 ^ 48 % 256, n / 2 ^ 40 % 256, n / 2 ^ 32 % 256,
   n / 2 ^ 24 % 256, n / 2 ^ 16 % 256, n / 2 ^ 8 % 256, n % 256]

/-- Big-endian read of a byte string, the numeric value `struct.unpack`
assigns to an `I` (4 bytes) or `Q` (8 bytes) field. -/
def readBE (bs : List Nat) : Nat := bs.foldl (fun acc b => acc * 256 + b) 0

/-- The `16s` field of `struct.pack`: truncate to 16 bytes and zero-pad on
the right. -/
def pad16 (b : List Nat) : List Nat := b.take 16 ++ List.replicate (16 - b.length) 0

/-- BaseEngine.pack_header (base_engine.py lines 104-113):
`struct.pack(">16sIIIIQQ", data_id, total_shares, required_shares,
which_segment, 0, 0, data_len)`, the canonical 48-byte header. -/
def pack_header (data_id : List Nat) (total_shares required_shares which_segment data_len : Nat) :
    List Nat :=
  pad16 data_id ++ be32 total_shares ++ be32 required_shares ++ be32 which_segment ++
    be32 0 ++ be64 0 ++ be64 data_len

/-- The seven fields of the canonical 48-byte header. -/
structure Header where
  data_id : List Nat
  total_shares : Nat
  required_shares : Nat
  which_segment : Nat
  reserved1 : Nat
  reserved2 : Nat
  data_len : Nat
deriving DecidableEq, Repr

/-- BaseEngine.unpack_header (base_engine.py line 115):
`struct.unpack(">16sIIIIQQ", header)` applied to the first 48 bytes. -/
def unpack_header (bs : List Nat) : Header :=
  { data_id := bs.take 16
  , total_shares := readBE ((bs.drop 16).take 4)
  , required_shares := readBE ((bs.drop 20).take 4)
  , which_segment := readBE ((bs.drop 24).take 4)
  , reserved1 := readBE ((bs.drop 28).take 4)
  , reserved2 := readBE ((bs.drop 32).take 8)
  , data_len := readBE ((bs.drop 40).take 8) }

/-- BaseEngine.decode_header (base_engine.py lines 118-150), applied to the
contents of a segment file: `f.read(48)` returns `min 48 (size)` bytes, a
short read raises `ValueError`, otherwise the 48-byte layout is unpacked. -/
def decode_header (contents : List Nat) : Except String Header :=
  if contents.length < 48 then .error ("Invalid header size")
  else .ok (unpack_header contents)

/-- The metadata RaDEngine.__init__ (rad_engine.py lines 42-51) reads from
the FIRST 32 bytes of the first supplied segment, with the 4-field layout
`struct.unpack(">16sIIQ", header)` and `HEADER_LENGTH = 32` of
rad_engine.py — not the 48-byte 7-field layout the write side uses. -/
structure RadMeta where
  data_id : List Nat
  total_shares : Nat
  required_shares : Nat
  data_length : Nat
deriving DecidableEq, Repr

/-- The `">16sIIQ"` parse of rad_engine.py line 48 on a segment's contents. -/
def rad_read_metadata (contents : List Nat) : RadMeta :=
  { data_id := contents.take 16
  , total_shares := readBE ((contents.drop 16).take 4)
  , required_shares := readBE ((contents.drop 20).take 4)
  , data_length := readBE ((contents.drop 24).take 8) }

/-- A persisted segment file. `nameIndex` models the integer that
`int(os.path.basename(path).split('.')[-1])` (rad_engine.py line 141)
extracts from the file's name; the split side names files `segment.{i}`.
Renaming a file changes `nameIndex` and leaves `contents` unchanged. -/
structure SegFile where
  nameIndex : Nat
  contents : List Nat
deriving DecidableEq, Repr

/-- The errors the pipelines can capture. `insufficientSegments` is
`ValueError("Insufficient number of segments to rebuild data.")`;
`zeroDivision` is the `ZeroDivisionError` from `math.ceil(len / 0)`;
`zfecError` covers errors raised by the zfec collaborator;
`valueError` covers the remaining `ValueError`s. -/
inductive RunError where
  | insufficientSegments
  | zeroDivision
  | zfecError (msg : String)
  | valueError (msg : String)
deriving DecidableEq, Repr

/-- The text `str(e)` written to the diagnostics sidecar. -/
def describe : RunError → String
  | .insufficientSegments => "Insufficient number of segments to rebuild data."
  | .zeroDivision => "division by zero"
  | .zfecError m => m
  | .valueError m => m

/-- Lines 162-170 of ead_engine.py: `block_size = ceil(data_len /
required_shares)` (Python computes the true ceiling here; `math.ceil`
raises ZeroDivisionError for `required_shares = 0`, handled by the caller),
zero-pad the data on the right to `block_size * required_shares` bytes
(`ljust`), and slice it into `required_shares` blocks of `block_size`. -/
def make_blocks (required_shares : Nat) (encrypted_data : List Nat) : List (List Nat) :=
  let data_len := encrypted_data.length
  let block_size := (data_len + required_shares - 1) / required_shares
  let padded_data := encrypted_data ++ List.replicate (block_size * required_shares - data_len) 0
  (List.range required_shares).map fun i =>
    (padded_data.drop (i * block_size)).take block_size

/-- EaDEngine._split_file_and_write (ead_engine.py lines 157-194), the pure
data part: compute the blocks (ZeroDivisionError when required_shares = 0),
erasure-encode them, and prepend the canonical packed header —
`which_segment = i`, `data_len` = ciphertext length — to encoded block `i`,
persisted as file `segment.{i}`.
`encode` models `zfec.Encoder(required_shares, total_shares).encode`. -/
def split_file_and_write
    (encode : Nat → Nat → List (List Nat) → Except String (List (List Nat)))
    (data_id : List Nat) (required_shares total_shares : Nat)
    (encrypted_data : List Nat) : Except RunError (List SegFile) :=
  if required_shares = 0 then .error .zeroDivision
  else
    match encode required_shares total_shares (make_blocks required_shares encrypted_data) with
    | .error e => .error (.zfecError e)
    | .ok encoded_blocks =>
        .ok (encoded_blocks.enum.map fun p =>
          { nameIndex := p.1
          , contents := pack_header data_id total_shares required_shares p.1
              encrypted_data.length ++ p.2 })

/-- RaDEngine._rebuild_encrypted_data (rad_engine.py lines 127-165), the
pure data part: for each supplied segment file, skip `HEADER_LENGTH = 32`
bytes, keep the rest as payload, take the index from the FILE NAME, decode
with `zfec.Decoder(shares_we_have, total_shares)` where `shares_we_have` is
the number of supplied segments, join and truncate to `data_length`.
`decode` models `zfec.Decoder(k, m).decode`. -/
def rebuild_encrypted_data
    (decode : Nat → Nat → List (List Nat) → List Nat → Except String (List (List Nat)))
    (total_shares data_length : Nat) (segs : List SegFile) : Except RunError (List Nat) :=
  let shares_we_have := segs.length
  let segments := segs.map fun s => s.contents.drop 32
  let indices := segs.map fun s => s.nameIndex
  if segments.length < shares_we_have then
    .error .insufficientSegments
  else
    match decode shares_we_have total_shares segments indices with
    | .error e => .error (.zfecError e)
    | .ok decoded => .ok (decoded.flatten.take data_length)

/-- The per-instance state RaDEngine.__init__ leaves behind: the metadata
parsed from the first supplied segment, plus the supplied segment list. -/
structure RaDState where
  meta : RadMeta
  segments : List SegFile
deriving DecidableEq, Repr

/-- RaDEngine.__init__ (rad_engine.py lines 42-66): reads the first 32
bytes of `segments[0]`; an empty segment list raises IndexError at
construction (modelled as `none` — no engine, hence no run, exists). -/
def rad_engine_init (segs : List SegFile) : Option RaDState :=
  match segs with
  | [] => none
  | s :: _ => some { meta := rad_read_metadata s.contents, segments := segs }

/-- RaDEngine._restore_file_thread (rad_engine.py lines 73-125), the pure
result: fail with the insufficient-segments error when fewer segments than
the stored `required_shares` were supplied, otherwise rebuild and decrypt.
`decrypt` models streaming AES-CFB decryption of the rebuilt ciphertext. -/
def restore_file_result
    (decode : Nat → Nat → List (List Nat) → List Nat → Except String (List (List Nat)))
    (decrypt : List Nat → List Nat) (st : RaDState) : Except RunError (List Nat) :=
  if st.segments.length < st.meta.required_shares then
    .error .insufficientSegments
  else
    (rebuild_encrypted_data decode st.meta.total_shares st.meta.data_length st.segments).map decrypt

/-- Construct a RaDEngine from segment files and run its worker to
completion: `none` when construction itself fails on an empty list. -/
def rad_construct_and_restore
    (decode : Nat → Nat → List (List Nat) → List Nat → Except String (List (List Nat)))
    (decrypt : List Nat → List Nat) (segs : List SegFile) :
    Option (Except RunError (List Nat)) :=
  (rad_engine_init segs).map (restore_file_result decode decrypt)

/-- The full split-then-rebuild round trip: encrypt, split and write the
segment files, then hand all of them to a freshly constructed
rebuild engine. -/
def ead_then_rad
    (encrypt decrypt : List Nat → List Nat)
    (encode : Nat → Nat → List (List Nat) → Except String (List (List Nat)))
    (decode : Nat → Nat → List (List Nat) → List Nat → Except String (List (List Nat)))
    (data_id : List Nat) (required_shares total_shares : Nat) (file : List Nat) :
    Option (Except RunError (List Nat)) :=
  match split_file_and_write encode data_id required_shares total_shares (encrypt file) with
  | .error _ => none
  | .ok segs => rad_construct_and_restore decode decrypt segs

/-- The observable outcome of one worker run (the `except` / success paths
of EaDEngine._split_file_thread, ead_engine.py lines 80-132, and
RaDEngine._restore_file_thread, rad_engine.py lines 73-125): both write the
error description to a file named `exception.txt` in the output directory,
invoke the exception callback, and call `_update_completed(True, e)`;
the success path calls `_update_completed(True)` with no error. -/
structure RunOutcome (α : Type) where
  successValue : Option α
  sidecar : Option (String × String)
  exceptionCallbackInvoked : Bool
  completed : Bool
  capturedError : Option RunError
deriving DecidableEq, Repr

/-- Run a worker body to its terminal state. -/
def run_worker {α : Type} (work : Except RunError α) : RunOutcome α :=
  match work with
  | .ok a =>
      { successValue := some a, sidecar := none, exceptionCallbackInvoked := false
      , completed := true, capturedError := none }
  | .error e =>
      { successValue := none, sidecar := some ("exception.txt", describe e)
      , exceptionCallbackInvoked := true, completed := true, capturedError := some e }

/-- BaseEngine.wait_on_complete (base_engine.py lines 91-102): blocks until
`completed`, then returns `False` exactly when an exception was captured. -/
def wait_on_complete {α : Type} (o : RunOutcome α) : Bool :=
  o.capturedError.isNone

/-- The externally observable events a worker emits, in order: progress
updates (which invoke the progress callback with the value that is also
stored in `progress`), the success callback, the diagnostics sidecar write,
the exception callback, and the single completion transition. -/
inductive Event (α : Type) where
  | progress (value : Nat)
  | successCallback (result : α)
  | exceptionSidecar (fileName : String)
  | exceptionCallback (e : RunError)
  | completed (success : Bool)
deriving DecidableEq, Repr

/-- The progress values reported by a run, in order. -/
def progressValues {α : Type} (evs : List (Event α)) : List Nat :=
  evs.filterMap fun e => match e with | .progress v => some v | _ => none

/-- The number of completion transitions a run performs. -/
def completedCount {α : Type} (evs : List (Event α)) : Nat :=
  (evs.filter fun e => match e with | .completed _ => true | _ => false).length

/-- Number of 64 KiB chunks a stream of `n` bytes is processed in
(`n // chunk_size + (1 if n % chunk_size > 0 else 0)`). -/
def chunkCount (n : Nat) : Nat := n / 65536 + (if n % 65536 > 0 then 1 else 0)

/-- Progress values of EaDEngine._encrypt_file (ead_engine.py lines
134-155): after each 64 KiB chunk, `0 + int((processed / total) * 50)`.
Python's float division and `int` truncation are modelled as the exact
rational floor `processed * 50 / total`; both are monotone in `processed`
and agree at `processed = total`. -/
def encryptTrace (total : Nat) : List Nat :=
  (List.range (chunkCount total)).map fun j => min ((j + 1) * 65536) total * 50 / total

/-- Progress values of the segment-writing loop of
EaDEngine._split_file_and_write (ead_engine.py line 192): after segment `i`,
`50 + int(((i + 1) / total_shares) * 50)`. -/
def splitTrace (total_shares : Nat) : List Nat :=
  (List.range total_shares).map fun i => 50 + (i + 1) * 50 / total_shares

/-- Progress values of a chunked loop over `n` bytes reporting
`base + int(((i + 1) / total_chunks) * 50)` per chunk — the write loop of
RaDEngine._rebuild_encrypted_data (line 163, base 0) and the decrypt loop
of RaDEngine._decrypt_data (line 185, base 50). -/
def chunkTrace (base n : Nat) : List Nat :=
  (List.range (chunkCount n)).map fun i => base + (i + 1) * 50 / chunkCount n

/-- The terminal result of EaDEngine._split_file_thread's work: encryption
(which in this model cannot fail) followed by split-and-write. -/
def ead_run_result
    (encode : Nat → Nat → List (List Nat) → Except String (List (List Nat)))
    (encrypt : List Nat → List Nat) (data_id : List Nat)
    (required_shares total_shares : Nat) (file : List Nat) :
    Except RunError (List SegFile) :=
  split_file_and_write encode data_id required_shares total_shares (encrypt file)

/-- The ordered event trace of one EaDEngine._split_file_thread run
(ead_engine.py lines 80-132): phase-1 progress, then on success phase-2
progress, the success callback and the completion transition; on failure
the `exception.txt` sidecar write, the exception callback and the
completion transition. -/
def ead_worker_events
    (encode : Nat → Nat → List (List Nat) → Except String (List (List Nat)))
    (encrypt : List Nat → List Nat) (data_id : List Nat)
    (required_shares total_shares : Nat) (file : List Nat) : List (Event (List SegFile)) :=
  let p1 := (encryptTrace file.length).map Event.progress
  match ead_run_result encode encrypt data_id required_shares total_shares file with
  | .error e =>
      p1 ++ [.exceptionSidecar ("exception.txt"), .exceptionCallback e, .completed false]
  | .ok segs =>
      p1 ++ (splitTrace total_shares).map Event.progress ++
        [.successCallback segs, .completed true]

/-- The ordered event trace of one RaDEngine._restore_file_thread run
(rad_engine.py lines 73-125). On success the rebuilt, truncated ciphertext
of length `L` is written in chunks (progress 0→50), then decrypted in
chunks (progress 50→100); all failures are raised before any progress
update. -/
def rad_worker_events
    (decode : Nat → Nat → List (List Nat) → List Nat → Except String (List (List Nat)))
    (decrypt : List Nat → List Nat) (st : RaDState) : List (Event (List Nat)) :=
  if st.segments.length < st.meta.required_shares then
    [.exceptionSidecar ("exception.txt"), .exceptionCallback .insufficientSegments,
     .completed false]
  else
    match rebuild_encrypted_data decode st.meta.total_shares st.meta.data_length st.segments with
    | .error e =>
        [.exceptionSidecar ("exception.txt"), .exceptionCallback e, .completed false]
    | .ok truncated =>
        (chunkTrace 0 truncated.length).map Event.progress ++
          (chunkTrace 50 truncated.length).map Event.progress ++
          [.successCallback (decrypt truncated), .completed true]

/-- Python truthiness of an optional bytes value followed by the length
check of BaseEngine.__init__ (base_engine.py lines 27-30): `key and
(not isinstance(key, bytes) or len(key) != n)`. An empty bytes value is
falsy, so it never triggers the check; the isinstance test is subsumed by
typing. -/
def bytes_len_bad (b : Option (List Nat)) (n : Nat) : Bool :=
  match b with
  | none => false
  | some l => !l.isEmpty && l.length != n

/-- The synchronous validation of BaseEngine.__init__ (base_engine.py lines
23-30): empty id, then key, then IV, each raising `ValueError`. -/
def base_engine_validate (id : String) (key iv : Option (List Nat)) : Except RunError Unit :=
  if id = "" then
    .error (.valueError ("ID must be a unique identifier for the engine."))
  else if bytes_len_bad key 32 then
    .error (.valueError ("Key must be a 32-byte AES256 key in bytes format."))
  else if bytes_len_bad iv 16 then
    .error (.valueError ("IV must be a 16-byte initialization vector in bytes format."))
  else .ok ()

/-- The constructed split-engine state (EaDEngine.__init__, ead_engine.py
lines 15-62): `required_shares` and `total_shares` are stored unexamined
(modelled as Int to cover negative inputs as well). -/
structure EaDEngineState where
  id : String
  key : List Nat
  iv : List Nat
  required_shares : Int
  total_shares : Int
deriving DecidableEq, Repr

/-- EaDEngine.__init__ (ead_engine.py lines 15-62): `key = key or
os.urandom(32)` and `iv = iv or os.urandom(16)` replace an absent or falsy
(empty) value with a fresh one (`freshKey` / `freshIv`); `freshId` is the
generated `uuid4` string; then BaseEngine.__init__ validates, and the share
counts are stored without any check. -/
def ead_engine_init (required_shares total_shares : Int)
    (key iv : Option (List Nat)) (freshKey freshIv : List Nat) (freshId : String) :
    Except RunError EaDEngineState :=
  let key := match key with
    | some k => if k.isEmpty then freshKey else k
    | none => freshKey
  let iv := match iv with
    | some v => if v.isEmpty then freshIv else v
    | none => freshIv
  match base_engine_validate freshId (some key) (some iv) with
  | .error e => .error e
  | .ok _ =>
      .ok { id := freshId, key := key, iv := iv
          , required_shares := required_shares, total_shares := total_shares }

/-- The zfec encoder at `k = m`: with exactly `k` equal blocks it returns
the `k` primary blocks unchanged (a systematic code has its first `k`
outputs equal to its inputs, and there are no parity shares when `m = k`);
any other shape raises a zfec error. -/
def idEncode (k m : Nat) (blocks : List (List Nat)) : Except String (List (List Nat)) :=
  if blocks.length == k && k == m then .ok blocks else .error ("zfec.Error")

/-- The zfec decoder at `k = m` supplied with the shares `0..k-1` in their
natural order: it returns the shares unchanged. -/
def idDecode (k m : Nat) (shares : List (List Nat)) (sharenums : List Nat) :
    Except String (List (List Nat)) :=
  if shares.length == k && k == m && sharenums == List.range k then .ok shares
  else .error ("zfec.Error")

/-- A systematic (1, 2) erasure coder: share 0 is the data block, share 1
adds one to every byte mod 256. Any single share together with its true
index recovers the data block, so this has exactly the interface and
recovery behaviour of a (1, 2) MDS code such as zfec's. -/
def shiftEncode (k m : Nat) (blocks : List (List Nat)) : Except String (List (List Nat)) :=
  if k == 1 && m == 2 && blocks.length == 1 then
    .ok (blocks ++ blocks.map (List.map fun b => (b + 1) % 256))
  else .error ("zfec.Error")

/-- The decoder matching `shiftEncode`: a share with index 0 is the data
block itself; a share with index 1 is decoded by subtracting one from
every byte mod 256. -/
def shiftDecode (k m : Nat) (shares : List (List Nat)) (sharenums : List Nat) :
    Except String (List (List Nat)) :=
  if k == 1 && m == 2 && shares.length == 1 then
    .ok ((shares.zip sharenums).map fun p =>
      if p.2 = 0 then p.1 else p.1.map fun b => (b + 255) % 256)
  else .error ("zfec.Error")

/-- Recovery of `shiftDecode` from either share of `shiftEncode`: the pair
behaves as a genuine (1, 2) erasure code on byte blocks. -/
theorem shift_coder_recovers (b : List Nat) (hb : ∀ x ∈ b, x < 256) :
    shiftEncode 1 2 [b] = .ok [b, b.map fun x => (x + 1) % 256] ∧
    shiftDecode 1 2 [b] [0] = .ok [b] ∧
    shiftDecode 1 2 [b.map fun x => (x + 1) % 256] [1] = .ok [b] := by
  refine ⟨by simp [shiftEncode], by simp [shiftDecode, List.zip], ?_⟩
  simp only [shiftDecode, List.length_cons, List.length_nil, List.zip, List.zipWith,
    beq_self_eq_true, Bool.and_self, if_true, List.map_map]
  norm_num
  refine List.map_congr_left ?_ |>.trans (List.map_id b)
  intro x hx
  have : x < 256 := hb x hx
  simp only [Function.comp_apply, id_eq]
  omega

/-- The segment files of a (1, 1) split of the one-byte file `[7]` with the
identity cipher: one segment, `segment.0`. -/
def roundTripSegs : List SegFile :=
  (split_file_and_write idEncode (List.replicate 16 1) 1 1 [7]).toOption.getD []

/-- The segment files of a (1, 2) split of the one-byte ciphertext `[7]`
with the shift coder: `segment.0` and `segment.1`. -/
def cexSegs : List SegFile :=
  (split_file_and_write shiftEncode (List.replicate 16 1) 1 2 [7]).toOption.getD []

lemma length_be32 (n : Nat) : (be32 n).length = 4 := rfl

lemma length_be64 (n : Nat) : (be64 n).length = 8 := rfl

lemma length_pad16 (b : List Nat) : (pad16 b).length = 16 := by
  simp only [pad16, List.length_append, List.length_take, List.length_replicate]
  omega

lemma readBE_be32 {n : Nat} (h : n < 2 ^ 32) : readBE (be32 n) = n := by
  simp only [readBE, be32, List.foldl]
  omega

lemma readBE_be64 {n : Nat} (h : n < 2 ^ 64) : readBE (be64 n) = n := by
  simp only [readBE, be64, List.foldl]
  omega

lemma foldl_readBE (l : List Nat) (init : Nat) :
    List.foldl (fun acc b => acc * 256 + b) init l = init * 256 ^ l.length + readBE l := by
  induction l generalizing init with
  | nil => simp [readBE]
  | cons a l ih =>
      simp only [List.foldl_cons, List.length_cons, readBE]
      rw [ih (init * 256 + a), ih (0 * 256 + a)]
      ring

lemma readBE_append (xs ys : List Nat) :
    readBE (xs ++ ys) = readBE xs * 256 ^ ys.length + readBE ys := by
  rw [readBE, List.foldl_append, foldl_readBE]
  rfl

lemma pack_header_assoc (data_id : List Nat) (T R i L : Nat) (payload : List Nat) :
    pack_header data_id T R i L ++ payload =
      pad16 data_id ++ (be32 T ++ (be32 R ++ (be32 i ++ (be32 0 ++ (be64 0 ++
        (be64 L ++ payload)))))) := by
  simp [pack_header, List.append_assoc]

/-- The canonical 48-byte read path inverts the write path: unpacking a
packed header (followed by any payload) recovers every field, provided the
numeric fields are in the ranges `struct.pack` accepts. -/
lemma unpack_header_pack (data_id : List Nat) (T R i L : Nat) (payload : List Nat)
    (hT : T < 2 ^ 32) (hR : R < 2 ^ 32) (hi : i < 2 ^ 32) (hL : L < 2 ^ 64) :
    unpack_header (pack_header data_id T R i L ++ payload) =
      { data_id := pad16 data_id, total_shares := T, required_shares := R
      , which_segment := i, reserved1 := 0, reserved2 := 0, data_len := L } := by
  rw [pack_header_assoc]
  set X := pad16 data_id ++ (be32 T ++ (be32 R ++ (be32 i ++ (be32 0 ++ (be64 0 ++
    (be64 L ++ payload)))))) with hX
  have h16 : (pad16 data_id).length = 16 := length_pad16 data_id
  have d1 : X.drop 16 = be32 T ++ (be32 R ++ (be32 i ++ (be32 0 ++ (be64 0 ++
      (be64 L ++ payload))))) := by
    rw [hX]; exact List.drop_left' h16
  have d2 : X.drop 20 = be32 R ++ (be32 i ++ (be32 0 ++ (be64 0 ++ (be64 L ++ payload)))) := by
    rw [show (20 : Nat) = 16 + 4 from rfl, ← List.drop_drop, d1]
    exact List.drop_left' (length_be32 T)
  have d3 : X.drop 24 = be32 i ++ (be32 0 ++ (be64 0 ++ (be64 L ++ payload))) := by
    rw [show (24 : Nat) = 20 + 4 from rfl, ← List.drop_drop, d2]
    exact List.drop_left' (length_be32 R)
  have d4 : X.drop 28 = be32 0 ++ (be64 0 ++ (be64 L ++ payload)) := by
    rw [show (28 : Nat) = 24 + 4 from rfl, ← List.drop_drop, d3]
    exact List.drop_left' (length_be32 i)
  have d5 : X.drop 32 = be64 0 ++ (be64 L ++ payload) := by
    rw [show (32 : Nat) = 28 + 4 from rfl, ← List.drop_drop, d4]
    exact List.drop_left' (length_be32 0)
  have d6 : X.drop 40 = be64 L ++ payload := by
    rw [show (40 : Nat) = 32 + 8 from rfl, ← List.drop_drop, d5]
    exact List.drop_left' (length_be64 0)
  simp only [unpack_header, Header.mk.injEq]
  refine ⟨?_, ?_, ?_, ?_, ?_, ?_, ?_⟩
  · rw [hX]; exact List.take_left' h16
  · rw [d1, List.take_left' (length_be32 T), readBE_be32 hT]
  · rw [d2, List.take_left' (length_be32 R), readBE_be32 hR]
  · rw [d3, List.take_left' (length_be32 i), readBE_be32 hi]
  · rw [d4, List.take_left' (length_be32 0), readBE_be32 (by norm_num)]
  · rw [d5, List.take_left' (length_be64 0), readBE_be64 (by norm_num)]
  · rw [d6, List.take_left' (length_be64 L), readBE_be64 hL]

/-- What RaDEngine.__init__ actually recovers from a segment written by the
split side: `data_id`, `total_shares` and `required_shares` (whose offsets
agree between the 32-byte 4-field read layout and the 48-byte 7-field write
layout) are correct, but the 8 bytes it reads as `data_length` are the
packed `which_segment` and first reserved field, so it recovers
`which_segment * 2^32` instead of the packed `data_len`. -/
lemma rad_read_metadata_pack (data_id : List Nat) (T R i L : Nat) (payload : List Nat)
    (hT : T < 2 ^ 32) (hR : R < 2 ^ 32) (hi : i < 2 ^ 32) :
    rad_read_metadata (pack_header data_id T R i L ++ payload) =
      { data_id := pad16 data_id, total_shares := T, required_shares := R
      , data_length := i * 2 ^ 32 } := by
  rw [pack_header_assoc]
  set X := pad16 data_id ++ (be32 T ++ (be32 R ++ (be32 i ++ (be32 0 ++ (be64 0 ++
    (be64 L ++ payload)))))) with hX
  have h16 : (pad16 data_id).length = 16 := length_pad16 data_id
  have d1 : X.drop 16 = be32 T ++ (be32 R ++ (be32 i ++ (be32 0 ++ (be64 0 ++
      (be64 L ++ payload))))) := by
    rw [hX]; exact List.drop_left' h16
  have d2 : X.drop 20 = be32 R ++ (be32 i ++ (be32 0 ++ (be64 0 ++ (be64 L ++ payload)))) := by
    rw [show (20 : Nat) = 16 + 4 from rfl, ← List.drop_drop, d1]
    exact List.drop_left' (length_be32 T)
  have d3 : X.drop 24 = be32 i ++ (be32 0 ++ (be64 0 ++ (be64 L ++ payload))) := by
    rw [show (24 : Nat) = 20 + 4 from rfl, ← List.drop_drop, d2]
    exact List.drop_left' (length_be32 R)
  have t8 : (X.drop 24).take 8 = be32 i ++ be32 0 := by
    rw [d3, show (8 : Nat) = (be32 i).length + 4 from rfl, List.take_append,
      List.take_left' (length_be32 0)]
  simp only [rad_read_metadata, RadMeta.mk.injEq]
  refine ⟨?_, ?_, ?_, ?_⟩
  · rw [hX]; exact List.take_left' h16
  · rw [d1, List.take_left' (length_be32 T), readBE_be32 hT]
  · rw [d2, List.take_left' (length_be32 R), readBE_be32 hR]
  · rw [t8, readBE_append, readBE_be32 hi, readBE_be32 (by norm_num), length_be32]
    norm_num

lemma chain'_le_map_range {f : Nat → Nat} (n : Nat) (hf : ∀ i, f i ≤ f (i + 1)) :
    List.Chain' (· ≤ ·) ((List.range n).map f) := by
  rw [List.chain'_map]
  cases n with
  | zero => simp
  | succ m => exact (List.chain'_range_succ _ m).mpr fun i _ => hf i

lemma chain'_le_append {l₁ l₂ : List Nat}
    (h₁ : List.Chain' (· ≤ ·) l₁) (h₂ : List.Chain' (· ≤ ·) l₂)
    (hb : ∀ x ∈ l₁, ∀ y ∈ l₂, x ≤ y) : List.Chain' (· ≤ ·) (l₁ ++ l₂) := by
  rw [List.chain'_append]
  refine ⟨h₁, h₂, fun x hx y hy => hb x ?_ y (List.mem_of_mem_head? hy)⟩
  obtain ⟨h, rfl⟩ := List.mem_getLast?_eq_getLast hx
  exact List.getLast_mem h

lemma encryptTrace_chain (total : Nat) : List.Chain' (· ≤ ·) (encryptTrace total) := by
  refine chain'_le_map_range _ fun i => ?_
  have : min ((i + 1) * 65536) total ≤ min ((i + 1 + 1) * 65536) total := by
    exact min_le_min (by omega) le_rfl
  exact Nat.div_le_div_right (Nat.mul_le_mul_right _ this)

lemma encryptTrace_le (total : Nat) : ∀ x ∈ encryptTrace total, x ≤ 50 := by
  intro x hx
  simp only [encryptTrace, List.mem_map, List.mem_range] at hx
  obtain ⟨j, _, rfl⟩ := hx
  rcases Nat.eq_zero_or_pos total with h0 | hpos
  · subst h0; simp
  · calc min ((j + 1) * 65536) total * 50 / total
        ≤ total * 50 / total :=
          Nat.div_le_div_right (Nat.mul_le_mul_right _ (min_le_right _ _))
      _ = 50 := by rw [Nat.mul_comm, Nat.mul_div_cancel _ hpos]

lemma splitTrace_chain (T : Nat) : List.Chain' (· ≤ ·) (splitTrace T) := by
  refine chain'_le_map_range _ fun i => ?_
  have : (i + 1) * 50 / T ≤ (i + 1 + 1) * 50 / T :=
    Nat.div_le_div_right (by omega)
  omega

lemma splitTrace_ge (T : Nat) : ∀ x ∈ splitTrace T, 50 ≤ x := by
  intro x hx
  simp only [splitTrace, List.mem_map, List.mem_range] at hx
  obtain ⟨i, _, rfl⟩ := hx
  exact Nat.le_add_right 50 _

lemma chunkTrace_chain (base n : Nat) : List.Chain' (· ≤ ·) (chunkTrace base n) := by
  refine chain'_le_map_range _ fun i => ?_
  have : (i + 1) * 50 / chunkCount n ≤ (i + 1 + 1) * 50 / chunkCount n :=
    Nat.div_le_div_right (by omega)
  omega

lemma chunkTrace_le (n : Nat) : ∀ x ∈ chunkTrace 0 n, x ≤ 50 := by
  intro x hx
  simp only [chunkTrace, List.mem_map, List.mem_range] at hx
  obtain ⟨i, hi, rfl⟩ := hx
  have hpos : 0 < chunkCount n := by omega
  rw [Nat.zero_add]
  calc (i + 1) * 50 / chunkCount n
      ≤ chunkCount n * 50 / chunkCount n :=
        Nat.div_le_div_right (Nat.mul_le_mul_right _ (by omega))
    _ = 50 := by rw [Nat.mul_comm, Nat.mul_div_cancel _ hpos]

lemma chunkTrace_ge (base n : Nat) : ∀ x ∈ chunkTrace base n, base ≤ x := by
  intro x hx
  simp only [chunkTrace, List.mem_map, List.mem_range] at hx
  obtain ⟨i, _, rfl⟩ := hx
  exact Nat.le_add_right base _

lemma chunkCount_pos {n : Nat} (hn : 0 < n) : 0 < chunkCount n := by
  unfold chunkCount
  by_cases h : n % 65536 > 0
  · simp [h]
  · simp only [h, if_false]
    omega

/-- The final value of a chunked 50-point phase: at the last chunk the
reported value is `base + 50`. -/
lemma chunkTrace_last {n : Nat} (hn : 0 < n) (base : Nat) :
    base + 50 ∈ chunkTrace base n := by
  have hpos : 0 < chunkCount n := chunkCount_pos hn
  simp only [chunkTrace, List.mem_map, List.mem_range]
  refine ⟨chunkCount n - 1, by omega, ?_⟩
  have : chunkCount n - 1 + 1 = chunkCount n := by omega
  rw [this, Nat.mul_comm, Nat.mul_div_cancel _ hpos]

lemma splitTrace_last {T : Nat} (hT : 0 < T) : (100 : Nat) ∈ splitTrace T := by
  simp only [splitTrace, List.mem_map, List.mem_range]
  refine ⟨T - 1, by omega, ?_⟩
  have h1 : T - 1 + 1 = T := by omega
  rw [h1, Nat.mul_comm, Nat.mul_div_cancel _ hT]

lemma progressValues_append {α : Type} (l₁ l₂ : List (Event α)) :
    progressValues (l₁ ++ l₂) = progressValues l₁ ++ progressValues l₂ :=
  List.filterMap_append l₁ l₂ _

lemma progressValues_map_progress {α : Type} (l : List Nat) :
    progressValues (l.map (Event.progress (α := α))) = l := by
  induction l with
  | nil => rfl
  | cons a l ih => simpa [progressValues, List.filterMap_cons] using ih

lemma completedCount_append {α : Type} (l₁ l₂ : List (Event α)) :
    completedCount (l₁ ++ l₂) = completedCount l₁ + completedCount l₂ := by
  simp [completedCount, List.filter_append]

lemma completedCount_map_progress {α : Type} (l : List Nat) :
    completedCount (l.map (Event.progress (α := α))) = 0 := by
  induction l with
  | nil => rfl
  | cons a l ih => simp [completedCount, List.filter_cons, ih]

lemma ead_worker_events_error
    {encode : Nat → Nat → List (List Nat) → Except String (List (List Nat))}
    {encrypt : List Nat → List Nat} {data_id : List Nat} {R T : Nat} {file : List Nat}
    {e : RunError} (h : ead_run_result encode encrypt data_id R T file = .error e) :
    ead_worker_events encode encrypt data_id R T file =
      (encryptTrace file.length).map Event.progress ++
        [.exceptionSidecar ("exception.txt"), .exceptionCallback e, .completed false] := by
  simp only [ead_worker_events, h]

lemma ead_worker_events_ok
    {encode : Nat → Nat → List (List Nat) → Except String (List (List Nat))}
    {encrypt : List Nat → List Nat} {data_id : List Nat} {R T : Nat} {file : List Nat}
    {segs : List SegFile} (h : ead_run_result encode encrypt data_id R T file = .ok segs) :
    ead_worker_events encode encrypt data_id R T file =
      (encryptTrace file.length).map Event.progress ++
        (splitTrace T).map Event.progress ++ [.successCallback segs, .completed true] := by
  simp only [ead_worker_events, h, List.append_assoc]

lemma rad_worker_events_insufficient
    {decode : Nat → Nat → List (List Nat) → List Nat → Except String (List (List Nat))}
    {decrypt : List Nat → List Nat} {st : RaDState}
    (h : st.segments.length < st.meta.required_shares) :
    rad_worker_events decode decrypt st =
      [.exceptionSidecar ("exception.txt"), .exceptionCallback .insufficientSegments,
       .completed false] := by
  simp only [rad_worker_events, if_pos h]

lemma rad_worker_events_rebuild_error
    {decode : Nat → Nat → List (List Nat) → List Nat → Except String (List (List Nat))}
    {decrypt : List Nat → List Nat} {st : RaDState} {e : RunError}
    (hge : ¬ st.segments.length < st.meta.required_shares)
    (h : rebuild_encrypted_data decode st.meta.total_shares st.meta.data_length st.segments
          = .error e) :
    rad_worker_events decode decrypt st =
      [.exceptionSidecar ("exception.txt"), .exceptionCallback e, .completed false] := by
  simp only [rad_worker_events, if_neg hge, h]

lemma rad_worker_events_ok
    {decode : Nat → Nat → List (List Nat) → List Nat → Except String (List (List Nat))}
    {decrypt : List Nat → List Nat} {st : RaDState} {truncated : List Nat}
    (hge : ¬ st.segments.length < st.meta.required_shares)
    (h : rebuild_encrypted_data decode st.meta.total_shares st.meta.data_length st.segments
          = .ok truncated) :
    rad_worker_events decode decrypt st =
      (chunkTrace 0 truncated.length).map Event.progress ++
        (chunkTrace 50 truncated.length).map Event.progress ++
        [.successCallback (decrypt truncated), .completed true] := by
  simp only [rad_worker_events, if_neg hge, h, List.append_assoc]

lemma restore_file_result_ok_iff
    {decode : Nat → Nat → List (List Nat) → List Nat → Except String (List (List Nat))}
    {decrypt : List Nat → List Nat} {st : RaDState} :
    (∃ v, restore_file_result decode decrypt st = .ok v) ↔
      (¬ st.segments.length < st.meta.required_shares ∧
        ∃ t, rebuild_encrypted_data decode st.meta.total_shares st.meta.data_length st.segments
              = .ok t) := by
  unfold restore_file_result
  by_cases h : st.segments.length < st.meta.required_shares
  · simp [h]
  · simp only [h, if_false, not_false_iff, true_and]
    cases hr : rebuild_encrypted_data decode st.meta.total_shares st.meta.data_length
        st.segments with
    | error e => simp [Except.map]
    | ok t => simp [Except.map]

/-- C1. The claim states that splitting then rebuilding from any R of the T
segments reproduces the original file byte-for-byte. It fails on the code:
with the identity stream cipher (a legitimate instance of the symmetric
cipher contract) and the zfec coder at (R, T) = (1, 1) (the identity code),
splitting the one-byte file `[7]` and rebuilding from the single produced
segment returns the empty file, because the rebuild side misreads the
packed `which_segment`/reserved bytes of `segment.0` as `data_length = 0`
and truncates everything away. -/
theorem eade_C1_round_trip_fails :
    ead_then_rad (fun x => x) (fun x => x) idEncode idDecode
        (List.replicate 16 1) 1 1 [7] = some (.ok []) ∧
      ([] : List Nat) ≠ [7] := by
  exact ⟨by decide, by decide⟩

/-- C2. The claim states that RaDEngine construction recovers exactly the
packed `data_id`, `total_shares`, `required_shares` and `data_len` of the
canonical 48-byte 7-field header, with `data_len` equal to the ciphertext
length stored at header bytes 40..48. On the segment `segment.0` produced
by a (1, 1) split of the one-byte ciphertext `[7]`, the canonical header
stores `data_len = 1` at bytes 40..48, but construction (which reads only
32 bytes with a 4-field layout) recovers `data_length = 0`. -/
theorem eade_C2_construction_misreads_data_len :
    rad_read_metadata (roundTripSegs.headD ⟨0, []⟩).contents =
      { data_id := List.replicate 16 1, total_shares := 1, required_shares := 1
      , data_length := 0 } ∧
    decode_header (roundTripSegs.headD ⟨0, []⟩).contents =
      .ok { data_id := List.replicate 16 1, total_shares := 1, required_shares := 1
          , which_segment := 0, reserved1 := 0, reserved2 := 0, data_len := 1 } ∧
    (0 : Nat) ≠ 1 := by
  exact ⟨by decide, by decide, by decide⟩

/-- C3. The claim states that the `which_segment` index fed to the erasure
decoder is the value parsed from the segment's 48-byte header, and that
renaming a segment file does not change the reconstruction result. On the
code it fails: the parity segment `segment.1` of a (1, 2) split carries
`which_segment = 1` in its header (unchanged under renaming), yet
rebuilding from it alone yields different restored bytes once the file is
renamed to `segment.0`, because rad_engine.py line 141 takes the index
from the file name. The decoder instance is the (1, 2) shift coder, which
recovers correctly from any one true (index, payload) pair. -/
theorem eade_C3_rename_changes_result :
    (decode_header (cexSegs.getD 1 ⟨0, []⟩).contents).map (fun h => h.which_segment)
        = .ok 1 ∧
    (decode_header ({ cexSegs.getD 1 ⟨0, []⟩ with nameIndex := 0 } : SegFile).contents).map
        (fun h => h.which_segment) = .ok 1 ∧
    rad_construct_and_restore shiftDecode (fun x => x) [cexSegs.getD 1 ⟨0, []⟩] ≠
      rad_construct_and_restore shiftDecode (fun x => x)
        [{ cexSegs.getD 1 ⟨0, []⟩ with nameIndex := 0 }] := by
  exact ⟨by decide, by decide, by decide⟩

/-- C4. The claim states that the decode step, applied to any set of
R valid (index, payload) pairs, yields the R original blocks in their
original positional order. On the code it fails even for the single valid
data pair of a (1, 2) split of the ciphertext `[7]` (original block list
`[[7]]`): only 32 of the 48 header bytes are stripped, so the pair handed
to the decoder carries 16 residual header bytes, the decoder returns that
17-byte block rather than `[7]`, and the full rebuild result is the empty
list (after truncation to the misread `data_length = 0`) instead of the
original ciphertext `[7]`. -/
theorem eade_C4_decode_step_wrong_blocks :
    shiftDecode 1 2 [(cexSegs.getD 0 ⟨0, []⟩).contents.drop 32]
        [(cexSegs.getD 0 ⟨0, []⟩).nameIndex] =
      .ok [[0, 0, 0, 0, 0, 0, 0, 0, 0, 0, 0, 0, 0, 0, 0, 1, 7]] ∧
    ([[0, 0, 0, 0, 0, 0, 0, 0, 0, 0, 0, 0, 0, 0, 0, 1, 7]] : List (List Nat)) ≠ [[7]] ∧
    rad_construct_and_restore shiftDecode (fun x => x) [cexSegs.getD 0 ⟨0, []⟩] =
      some (.ok []) := by
  exact ⟨by decide, by decide, by decide⟩

/-- C6 counterexample. A failing split run (here: `required_shares = 0`,
which makes the worker's `math.ceil` raise ZeroDivisionError) writes its
diagnostics sidecar under the name `exception.txt`, not under the name
`exception` the claim requires. -/
theorem eade_C6_sidecar_named_exception_txt :
    Event.exceptionSidecar ("exception.txt") ∈
        ead_worker_events idEncode (fun x => x) (List.replicate 16 1) 0 1 [] ∧
      Event.exceptionSidecar ("exception") ∉
        ead_worker_events idEncode (fun x => x) (List.replicate 16 1) 0 1 [] := by
  exact ⟨by decide, by decide⟩

/-- C7 counterexample. A supplied empty key (`b''`, zero bytes, hence not
32 bytes long) does not make construction raise: Python's truthiness test
`if key and ...` skips the length check for falsy byte strings, so
validation succeeds. -/
theorem eade_C7_empty_key_accepted :
    base_engine_validate ("x") (some []) none = .ok () ∧
      ([] : List Nat).length ≠ 32 := by
  exact ⟨by decide, by decide⟩

/-- C9 counterexample. A successful rebuild run that completes without ever
reporting progress 100: rebuilding from the segment of a (1, 1) split, the
misread `data_length = 0` makes the truncated ciphertext empty, both
chunked loops run zero iterations, and the run succeeds (the completion
transition with success fires) with no progress report at all. -/
theorem eade_C9_success_without_100 :
    Event.completed true ∈
        rad_worker_events idDecode (fun x => x)
          ((rad_engine_init roundTripSegs).getD ⟨⟨[], 0, 0, 0⟩, []⟩) ∧
      Event.progress 100 ∉
        rad_worker_events idDecode (fun x => x)
          ((rad_engine_init roundTripSegs).getD ⟨⟨[], 0, 0, 0⟩, []⟩) := by
  exact ⟨by decide, by decide⟩

/-- C5. For every rebuild run constructed from segments and supplied with
fewer segment paths than the `required_shares` recovered at construction,
the worker fails with the distinct insufficient-segments error (raised
before any decoding is attempted, hence never a generic decode failure),
no success value is produced, and `wait_on_complete` returns false. -/
theorem eade_C5_threshold
    (decode : Nat → Nat → List (List Nat) → List Nat → Except String (List (List Nat)))
    (decrypt : List Nat → List Nat) (segs : List SegFile) (st : RaDState)
    (hinit : rad_engine_init segs = some st)
    (hlt : segs.length < st.meta.required_shares) :
    restore_file_result decode decrypt st = .error .insufficientSegments ∧
      (run_worker (restore_file_result decode decrypt st)).successValue = none ∧
      wait_on_complete (run_worker (restore_file_result decode decrypt st)) = false := by
  have hsegs : st.segments = segs := by
    cases segs with
    | nil => simp [rad_engine_init] at hinit
    | cons s rest =>
        simp only [rad_engine_init, Option.some.injEq] at hinit
        rw [← hinit]
  have h : st.segments.length < st.meta.required_shares := by rw [hsegs]; exact hlt
  have hres : restore_file_result decode decrypt st = .error .insufficientSegments := by
    unfold restore_file_result
    rw [if_pos h]
  exact ⟨hres, by rw [hres]; rfl, by rw [hres]; rfl⟩

/-- Concrete instance of the threshold theorem: one segment supplied, its
header demanding `required_shares = 2`. -/
def c5Segs : List SegFile :=
  [⟨0, pack_header (List.replicate 16 2) 3 2 0 5 ++ [9, 9, 9]⟩]

/-- The engine state constructed from `c5Segs`. -/
def c5State : RaDState := (rad_engine_init c5Segs).getD ⟨⟨[], 0, 0, 0⟩, []⟩

/-- Witness for C5 at a concrete run. -/
theorem eade_C5_threshold_witness :
    restore_file_result idDecode (fun x => x) c5State = .error .insufficientSegments ∧
      wait_on_complete (run_worker (restore_file_result idDecode (fun x => x) c5State))
        = false := by
  have h := eade_C5_threshold idDecode (fun x => x) c5Segs c5State (by decide) (by decide)
  exact ⟨h.1, h.2.2⟩

lemma rad_worker_events_error
    {decode : Nat → Nat → List (List Nat) → List Nat → Except String (List (List Nat))}
    {decrypt : List Nat → List Nat} {st : RaDState} {e : RunError}
    (h : restore_file_result decode decrypt st = .error e) :
    rad_worker_events decode decrypt st =
      [.exceptionSidecar ("exception.txt"), .exceptionCallback e, .completed false] := by
  unfold restore_file_result at h
  by_cases hlt : st.segments.length < st.meta.required_shares
  · rw [if_pos hlt] at h
    simp only [Except.error.injEq] at h
    rw [← h]
    exact rad_worker_events_insufficient hlt
  · rw [if_neg hlt] at h
    cases hr : rebuild_encrypted_data decode st.meta.total_shares st.meta.data_length
        st.segments with
    | error e2 =>
        rw [hr] at h
        simp only [Except.map, Except.error.injEq] at h
        rw [← h]
        exact rad_worker_events_rebuild_error hlt hr
    | ok t =>
        rw [hr] at h
        simp [Except.map] at h

/-- C6 amended. On any worker failure in either pipeline the captured
error's description is written to a sidecar file named `exception.txt`
(not `exception`) in the run's output directory, the exception callback is
invoked, the final event of the run is its single completion transition
(marked as failure), and `wait_on_complete` then returns false; moreover
`wait_on_complete` returns false if and only if an error was captured, and
every run — success or failure — performs exactly one completion
transition. -/
theorem eade_C6_failure_protocol :
    (∀ (encode : Nat → Nat → List (List Nat) → Except String (List (List Nat)))
        (encrypt : List Nat → List Nat) (data_id : List Nat) (R T : Nat)
        (file : List Nat) (e : RunError),
        ead_run_result encode encrypt data_id R T file = .error e →
          (run_worker (ead_run_result encode encrypt data_id R T file)).sidecar
              = some ("exception.txt", describe e) ∧
            Event.exceptionCallback e ∈ ead_worker_events encode encrypt data_id R T file ∧
            (ead_worker_events encode encrypt data_id R T file).getLast?
              = some (.completed false) ∧
            wait_on_complete (run_worker (ead_run_result encode encrypt data_id R T file))
              = false) ∧
    (∀ (decode : Nat → Nat → List (List Nat) → List Nat → Except String (List (List Nat)))
        (decrypt : List Nat → List Nat) (st : RaDState) (e : RunError),
        restore_file_result decode decrypt st = .error e →
          (run_worker (restore_file_result decode decrypt st)).sidecar
              = some ("exception.txt", describe e) ∧
            Event.exceptionCallback e ∈ rad_worker_events decode decrypt st ∧
            (rad_worker_events decode decrypt st).getLast? = some (.completed false) ∧
            wait_on_complete (run_worker (restore_file_result decode decrypt st)) = false) ∧
    (∀ (α : Type) (r : Except RunError α),
        wait_on_complete (run_worker r) = false ↔ ∃ e, r = .error e) ∧
    (∀ (encode : Nat → Nat → List (List Nat) → Except String (List (List Nat)))
        (encrypt : List Nat → List Nat) (data_id : List Nat) (R T : Nat) (file : List Nat),
        completedCount (ead_worker_events encode encrypt data_id R T file) = 1) ∧
    (∀ (decode : Nat → Nat → List (List Nat) → List Nat → Except String (List (List Nat)))
        (decrypt : List Nat → List Nat) (st : RaDState),
        completedCount (rad_worker_events decode decrypt st) = 1) := by
  refine ⟨?_, ?_, ?_, ?_, ?_⟩
  · intro encode encrypt data_id R T file e h
    refine ⟨by rw [h]; rfl, ?_, ?_, by rw [h]; rfl⟩
    · rw [ead_worker_events_error h]
      exact List.mem_append_right _ (by simp)
    · rw [ead_worker_events_error h, List.getLast?_append]
      rfl
  · intro decode decrypt st e h
    refine ⟨by rw [h]; rfl, ?_, ?_, by rw [h]; rfl⟩
    · rw [rad_worker_events_error h]; simp
    · rw [rad_worker_events_error h]; rfl
  · intro α r
    cases r <;> simp [run_worker, wait_on_complete]
  · intro encode encrypt data_id R T file
    cases h : ead_run_result encode encrypt data_id R T file with
    | error e =>
        rw [ead_worker_events_error h, completedCount_append, completedCount_map_progress]
        rfl
    | ok segs =>
        rw [ead_worker_events_ok h, completedCount_append, completedCount_append,
          completedCount_map_progress, completedCount_map_progress]
        rfl
  · intro decode decrypt st
    by_cases hlt : st.segments.length < st.meta.required_shares
    · rw [rad_worker_events_insufficient hlt]; rfl
    · cases hr : rebuild_encrypted_data decode st.meta.total_shares st.meta.data_length
          st.segments with
      | error e => rw [rad_worker_events_rebuild_error hlt hr]; rfl
      | ok t =>
          rw [rad_worker_events_ok hlt hr, completedCount_append, completedCount_append,
            completedCount_map_progress, completedCount_map_progress]
          rfl

/-- Witness for the amended C6 at a concrete failing run (`required_shares
= 0` raises ZeroDivisionError in the worker). -/
theorem eade_C6_failure_protocol_witness :
    (run_worker (ead_run_result idEncode (fun x => x) (List.replicate 16 1) 0 2 [3, 3])).sidecar
        = some ("exception.txt", describe RunError.zeroDivision) ∧
      wait_on_complete
          (run_worker (ead_run_result idEncode (fun x => x) (List.replicate 16 1) 0 2 [3, 3]))
        = false := by
  have h := eade_C6_failure_protocol.1 idEncode (fun x => x) (List.replicate 16 1) 0 2 [3, 3]
    RunError.zeroDivision (by decide)
  exact ⟨h.1, h.2.2.2⟩

lemma bytes_len_bad_iff (b : Option (List Nat)) (n : Nat) :
    bytes_len_bad b n = true ↔ ∃ l, b = some l ∧ l ≠ [] ∧ l.length ≠ n := by
  cases b with
  | none => simp [bytes_len_bad]
  | some l =>
      simp only [bytes_len_bad, Bool.and_eq_true, Bool.not_eq_true', List.isEmpty_eq_false,
        bne_iff_ne, ne_eq, Option.some.injEq]
      constructor
      · rintro ⟨h1, h2⟩
        exact ⟨l, rfl, h1, h2⟩
      · rintro ⟨l2, rfl, h1, h2⟩
        exact ⟨h1, h2⟩

/-- C7 amended. Engine construction raises a validation error synchronously
(the checks run in `__init__`, before any worker thread is spawned) exactly
when the id is empty, or a supplied key is non-empty with length ≠ 32
bytes, or a supplied IV is non-empty with length ≠ 16 bytes; an empty
supplied key or IV is falsy in Python and passes validation like an absent
one, and with a non-empty id and key/IV each absent, empty, or of exactly
the required length, construction succeeds without raising. -/
theorem eade_C7_validation (id : String) (key iv : Option (List Nat)) :
    (∃ e, base_engine_validate id key iv = .error e) ↔
      (id = "" ∨ (∃ k, key = some k ∧ k ≠ [] ∧ k.length ≠ 32) ∨
        (∃ v, iv = some v ∧ v ≠ [] ∧ v.length ≠ 16)) := by
  unfold base_engine_validate
  split_ifs with h1 h2 h3
  · exact iff_of_true ⟨_, rfl⟩ (Or.inl h1)
  · exact iff_of_true ⟨_, rfl⟩ (Or.inr (Or.inl ((bytes_len_bad_iff key 32).mp h2)))
  · exact iff_of_true ⟨_, rfl⟩ (Or.inr (Or.inr ((bytes_len_bad_iff iv 16).mp h3)))
  · refine iff_of_false ?_ ?_
    · rintro ⟨e, he⟩
      cases he
    · rintro (h | h | h)
      · exact h1 h
      · exact h2 ((bytes_len_bad_iff key 32).mpr h)
      · exact h3 ((bytes_len_bad_iff iv 16).mpr h)

/-- C8. For every successful split run with parameters (R, T) — zfec
guarantees the encoder emits exactly T blocks, taken as the hypothesis on
`encode`, and `struct.pack` bounds the numeric fields — the T segment
files all carry identical `data_id`, `total_shares`, `required_shares` and
`data_len` header fields (read back through the canonical 48-byte layout),
and the `which_segment` values across the segments are exactly
`0, …, T−1` in order, with no repeats. -/
theorem eade_C8_header_consistency
    (encode : Nat → Nat → List (List Nat) → Except String (List (List Nat)))
    (data_id : List Nat) (R T : Nat) (enc : List Nat) (segs : List SegFile)
    (hT32 : T < 2 ^ 32) (hR32 : R < 2 ^ 32) (hL : enc.length < 2 ^ 64)
    (hout : ∀ blocks out, encode R T blocks = .ok out → out.length = T)
    (hsplit : split_file_and_write encode data_id R T enc = .ok segs) :
    segs.length = T ∧
      (∀ s ∈ segs,
        (unpack_header s.contents).data_id = pad16 data_id ∧
          (unpack_header s.contents).total_shares = T ∧
          (unpack_header s.contents).required_shares = R ∧
          (unpack_header s.contents).data_len = enc.length) ∧
      segs.map (fun s => (unpack_header s.contents).which_segment) = List.range T := by
  by_cases hR0 : R = 0
  · rw [split_file_and_write, if_pos hR0] at hsplit
    cases hsplit
  rw [split_file_and_write, if_neg hR0] at hsplit
  cases henc : encode R T (make_blocks R enc) with
  | error e =>
      rw [henc] at hsplit
      cases hsplit
  | ok encoded =>
      rw [henc] at hsplit
      simp only [Except.ok.injEq] at hsplit
      subst hsplit
      have hTlen : encoded.length = T := hout _ _ henc
      have hmem : ∀ p : Nat × List Nat, p ∈ encoded.enum → p.1 < 2 ^ 32 := by
        intro p hp
        obtain ⟨hlt, -⟩ := List.getElem?_eq_some.mp (List.mem_enum_iff_getElem?.mp hp)
        omega
      refine ⟨by simp [List.enum_length, hTlen], ?_, ?_⟩
      · intro s hs
        simp only [List.mem_map] at hs
        obtain ⟨p, hp, rfl⟩ := hs
        rw [unpack_header_pack data_id T R p.1 enc.length p.2 hT32 hR32 (hmem p hp) hL]
        exact ⟨rfl, rfl, rfl, rfl⟩
      · rw [List.map_map,
          show List.range T = List.map Prod.fst encoded.enum from by
            rw [List.enum_map_fst, hTlen]]
        apply List.map_congr_left
        intro p hp
        simp only [Function.comp_apply]
        rw [unpack_header_pack data_id T R p.1 enc.length p.2 hT32 hR32 (hmem p hp) hL]

lemma idEncode_length {k m : Nat} {blocks out : List (List Nat)}
    (h : idEncode k m blocks = .ok out) : out.length = m := by
  unfold idEncode at h
  split_ifs at h with hc
  · simp only [Except.ok.injEq] at h
    subst h
    simp only [Bool.and_eq_true, beq_iff_eq] at hc
    omega

/-- Witness for C8 at the concrete (1, 1) split of `[7]`. -/
theorem eade_C8_header_consistency_witness :
    roundTripSegs.length = 1 ∧
      roundTripSegs.map (fun s => (unpack_header s.contents).which_segment)
        = List.range 1 := by
  have h := eade_C8_header_consistency idEncode (List.replicate 16 1) 1 1 [7] roundTripSegs
    (by norm_num) (by norm_num) (by norm_num)
    (fun blocks out hbo => idEncode_length hbo) (by decide)
  exact ⟨h.1, h.2.2⟩

/-- C9 amended. Within any single run of either pipeline the reported
progress values are non-decreasing; on a successful split run (zfec admits
only `total_shares ≥ 1`) the value 100 is reported and the run's final
event is its completion transition; on a successful rebuild run the same
holds provided the rebuilt truncated ciphertext is non-empty — a
successful rebuild of an empty truncated ciphertext completes without
reporting 100 (see the counterexample). -/
theorem eade_C9_progress :
    (∀ (encode : Nat → Nat → List (List Nat) → Except String (List (List Nat)))
        (encrypt : List Nat → List Nat) (data_id : List Nat) (R T : Nat) (file : List Nat),
        List.Chain' (· ≤ ·)
          (progressValues (ead_worker_events encode encrypt data_id R T file))) ∧
    (∀ (decode : Nat → Nat → List (List Nat) → List Nat → Except String (List (List Nat)))
        (decrypt : List Nat → List Nat) (st : RaDState),
        List.Chain' (· ≤ ·) (progressValues (rad_worker_events decode decrypt st))) ∧
    (∀ (encode : Nat → Nat → List (List Nat) → Except String (List (List Nat)))
        (encrypt : List Nat → List Nat) (data_id : List Nat) (R T : Nat)
        (file : List Nat) (segs : List SegFile), 1 ≤ T →
        ead_run_result encode encrypt data_id R T file = .ok segs →
          Event.progress 100 ∈ ead_worker_events encode encrypt data_id R T file ∧
            (ead_worker_events encode encrypt data_id R T file).getLast?
              = some (.completed true)) ∧
    (∀ (decode : Nat → Nat → List (List Nat) → List Nat → Except String (List (List Nat)))
        (decrypt : List Nat → List Nat) (st : RaDState) (t : List Nat),
        ¬ st.segments.length < st.meta.required_shares →
        rebuild_encrypted_data decode st.meta.total_shares st.meta.data_length st.segments
            = .ok t →
        t ≠ [] →
          Event.progress 100 ∈ rad_worker_events decode decrypt st ∧
            (rad_worker_events decode decrypt st).getLast? = some (.completed true)) := by
  refine ⟨?_, ?_, ?_, ?_⟩
  · intro encode encrypt data_id R T file
    cases h : ead_run_result encode encrypt data_id R T file with
    | error e =>
        rw [ead_worker_events_error h, progressValues_append, progressValues_map_progress]
        rw [show progressValues
            ([.exceptionSidecar ("exception.txt"), .exceptionCallback e, .completed false] :
              List (Event (List SegFile))) = [] from rfl, List.append_nil]
        exact encryptTrace_chain _
    | ok segs =>
        rw [ead_worker_events_ok h, progressValues_append, progressValues_append,
          progressValues_map_progress, progressValues_map_progress]
        rw [show progressValues
            ([.successCallback segs, .completed true] : List (Event (List SegFile))) = []
            from rfl, List.append_nil]
        exact chain'_le_append (encryptTrace_chain _) (splitTrace_chain _)
          fun x hx y hy => Nat.le_trans (encryptTrace_le _ x hx) (splitTrace_ge _ y hy)
  · intro decode decrypt st
    by_cases hlt : st.segments.length < st.meta.required_shares
    · rw [rad_worker_events_insufficient hlt]
      simp [progressValues]
    · cases hr : rebuild_encrypted_data decode st.meta.total_shares st.meta.data_length
          st.segments with
      | error e =>
          rw [rad_worker_events_rebuild_error hlt hr]
          simp [progressValues]
      | ok t =>
          rw [rad_worker_events_ok hlt hr, progressValues_append, progressValues_append,
            progressValues_map_progress, progressValues_map_progress]
          rw [show progressValues
              ([.successCallback (decrypt t), .completed true] : List (Event (List Nat))) = []
              from rfl, List.append_nil]
          exact chain'_le_append (chunkTrace_chain _ _) (chunkTrace_chain _ _)
            fun x hx y hy => Nat.le_trans (chunkTrace_le _ x hx) (chunkTrace_ge 50 _ y hy)
  · intro encode encrypt data_id R T file segs hT hok
    rw [ead_worker_events_ok hok]
    constructor
    · refine List.mem_append_left _ (List.mem_append_right _ ?_)
      exact List.mem_map_of_mem _ (splitTrace_last hT)
    · simp [List.getLast?_append]
  · intro decode decrypt st t hge hr ht
    rw [rad_worker_events_ok hge hr]
    constructor
    · have hpos : 0 < t.length := List.length_pos.mpr ht
      have h100 : (100 : Nat) ∈ chunkTrace 50 t.length := by
        have h := chunkTrace_last hpos 50
        norm_num at h
        exact h
      refine List.mem_append_left _ (List.mem_append_right _ ?_)
      exact List.mem_map_of_mem _ h100
    · simp [List.getLast?_append]

/-- Witness for the amended C9: the (1, 1) split of `[7]` has a
non-decreasing progress trace and reports 100 on success. -/
theorem eade_C9_progress_witness :
    List.Chain' (· ≤ ·)
        (progressValues (ead_worker_events idEncode (fun x => x)
          (List.replicate 16 1) 1 1 [7])) ∧
      Event.progress 100 ∈
        ead_worker_events idEncode (fun x => x) (List.replicate 16 1) 1 1 [7] := by
  refine ⟨eade_C9_progress.1 idEncode (fun x => x) (List.replicate 16 1) 1 1 [7], ?_⟩
  exact (eade_C9_progress.2.2.1 idEncode (fun x => x) (List.replicate 16 1) 1 1 [7]
    roundTripSegs (by norm_num) (by decide)).1

lemma validate_ok {id : String} {k v : List Nat} (hid : id ≠ "")
    (hk : k.length = 32) (hv : v.length = 16) :
    base_engine_validate id (some k) (some v) = .ok () := by
  unfold base_engine_validate
  rw [if_neg hid]
  have h1 : bytes_len_bad (some k) 32 = false := by simp [bytes_len_bad, hk]
  have h2 : bytes_len_bad (some v) 16 = false := by simp [bytes_len_bad, hv]
  rw [h1, h2]
  rfl

/-- C10. EaDEngine construction performs no validation of
`required_shares` or `total_shares`: for every pair (R, T) of integers —
including R > T, R = 0 and negative values — construction succeeds (with
valid-or-absent key/IV material) and stores R and T unexamined; a
violation such as R = 0 surfaces only in the asynchronous worker, which
fails (ZeroDivisionError at `math.ceil(data_len / 0)`) and makes
`wait_on_complete` return false, rather than raising at construction. -/
theorem eade_C10_no_share_validation
    (R T : Int) (key iv : Option (List Nat)) (freshKey freshIv : List Nat) (freshId : String)
    (hk : ∀ k, key = some k → k = [] ∨ k.length = 32)
    (hv : ∀ v, iv = some v → v = [] ∨ v.length = 16)
    (hfk : freshKey.length = 32) (hfi : freshIv.length = 16) (hid : freshId ≠ "") :
    (∃ st, ead_engine_init R T key iv freshKey freshIv freshId = .ok st ∧
        st.required_shares = R ∧ st.total_shares = T) ∧
      (∀ (encode : Nat → Nat → List (List Nat) → Except String (List (List Nat)))
          (data_id : List Nat) (T2 : Nat) (enc : List Nat),
          split_file_and_write encode data_id 0 T2 enc = .error .zeroDivision ∧
            wait_on_complete (run_worker (split_file_and_write encode data_id 0 T2 enc))
              = false) := by
  constructor
  · have hkey2 : (match key with
        | some k => if k.isEmpty then freshKey else k
        | none => freshKey).length = 32 := by
      cases key with
      | none => exact hfk
      | some k =>
          by_cases hke : k.isEmpty = true
          · simp [hke, hfk]
          · rcases hk k rfl with h | h
            · exact absurd (by simp [h]) hke
            · simp [hke, h]
    have hiv2 : (match iv with
        | some v => if v.isEmpty then freshIv else v
        | none => freshIv).length = 16 := by
      cases iv with
      | none => exact hfi
      | some v =>
          by_cases hve : v.isEmpty = true
          · simp [hve, hfi]
          · rcases hv v rfl with h | h
            · exact absurd (by simp [h]) hve
            · simp [hve, h]
    simp only [ead_engine_init]
    rw [validate_ok hid hkey2 hiv2]
    exact ⟨_, rfl, rfl, rfl⟩
  · intro encode data_id T2 enc
    have h : split_file_and_write encode data_id 0 T2 enc = .error .zeroDivision := rfl
    exact ⟨h, by rw [h]; rfl⟩

/-- Witness for C10 at concrete inputs: the worker-side failure half,
obtained from the theorem applied at R = −3, T = −7 with absent key/IV. -/
theorem eade_C10_no_share_validation_witness :
    split_file_and_write idEncode (List.replicate 16 1) 0 3 [1, 2] = .error .zeroDivision ∧
      wait_on_complete
          (run_worker (split_file_and_write idEncode (List.replicate 16 1) 0 3 [1, 2]))
        = false :=
  (eade_C10_no_share_validation (-3) (-7) none none (List.replicate 32 0)
      (List.replicate 16 0) ("i") (fun k hk => by cases hk) (fun v hv => by cases hv)
      (by simp) (by simp) (by decide)).2
    idEncode (List.replicate 16 1) 3 [1, 2]

end Eade
